import Mathlib

/-!
# Verification of the snark-cpp elliptic-curve point-arithmetic core

Shallow embedding of `src/include/ecc.hpp` (class `Ecc_Point`, struct
`CurveParameters`). The repository ships only the header: the bodies of
`operator+`, `operator-`, `operator*`, `operator==` and `doublePoint` are
declared there (with their documented formulas) but implemented elsewhere,
and the external big-integer type (`bigint.hpp`) is likewise absent.
Those parts are modelled from the specification, as flagged on each
definition. Big integers are embedded as Lean integers; `% p` (`Int.emod`)
is reduction modulo `p`, which yields a value in `[0, p)` whenever `p > 0`.
-/

/-- Modelled from the spec: the external arbitrary-precision integer
interface (`bigint.hpp`, not under `src/`). Values are embedded as Lean
integers. -/
abbrev BigInt := Int

/-- Modelled from the spec: a default-constructed external big integer
(the value a `BigInt` member holds when no constructor argument is given),
taken to be zero. -/
def bigIntDefault : BigInt := 0

/-- Curve parameters, from `struct CurveParameters` (src/include/ecc.hpp:20-27).
Each field is a default-constructed big integer until curve selection
assigns it. -/
structure CurveParameters where
  a : BigInt := bigIntDefault
  b : BigInt := bigIntDefault
  p : BigInt := bigIntDefault
  Gx : BigInt := bigIntDefault
  Gy : BigInt := bigIntDefault
  n : BigInt := bigIntDefault
deriving DecidableEq

/-- The active curve's parameters, from `Ecc_Point::setCurveParameters`
(src/include/ecc.hpp:208-233): the `USE_CURVE_P256` branch is compiled in
(src/include/ecc.hpp:7), so the six P-256 hexadecimal constants of lines
210-215 are assigned. -/
def setCurveParameters : CurveParameters :=
  { a := 0xffffffff00000001000000000000000000000000fffffffffffffffffffffffc
    b := 0x5ac635d8aa3a93e7b3ebbd55769886bc651d06b0cc53b0f63bce3c3e27d2604b
    p := 0xffffffff00000001000000000000000000000000ffffffffffffffffffffffff
    Gx := 0x6b17d1f2e12c4247f8bce6e563a440f277037d812deb33a0f4a13945d898c296
    Gy := 0x4fe342e2fe1a7f9b8ee7eb4a7c0f9e162bce33576b315ececbb6406837bf51f5
    n := 0xffffffff00000000ffffffffffffffffbce6faada7179e84f3b9cac2fc632551 }

/-- A point on the curve, from `class Ecc_Point` (src/include/ecc.hpp:37-252):
public flag `isInfinity`, private coordinates `xCoord`, `yCoord` and the
bound `curveParams`. -/
structure Ecc_Point where
  isInfinity : Bool
  xCoord : BigInt
  yCoord : BigInt
  curveParams : CurveParameters
deriving DecidableEq

namespace Ecc_Point

/-- The no-argument constructor (src/include/ecc.hpp:45): both coordinates
zero, `isInfinity` true; it does not call `setCurveParameters`, so
`curveParams` keeps its default-constructed members. -/
def identity : Ecc_Point :=
  { isInfinity := true, xCoord := 0, yCoord := 0, curveParams := {} }

/-- The coordinate constructor (src/include/ecc.hpp:52-54): marks the point
finite and calls `setCurveParameters`, binding the active (P-256) curve;
it does not validate that the coordinates lie on the curve. -/
def ofCoords (x y : BigInt) : Ecc_Point :=
  { isInfinity := false, xCoord := x, yCoord := y,
    curveParams := setCurveParameters }

/-- Accessor `getX` (src/include/ecc.hpp:82). -/
def getX (P : Ecc_Point) : BigInt := P.xCoord

/-- Accessor `getY` (src/include/ecc.hpp:88). -/
def getY (P : Ecc_Point) : BigInt := P.yCoord

/-- Accessor `getP` (src/include/ecc.hpp:90-92): returns the bound curve's
prime `p`, whatever the `curveParams` member currently holds. -/
def getP (P : Ecc_Point) : BigInt := P.curveParams.p

/-- Raw setter `setX` (src/include/ecc.hpp:98). -/
def setX (P : Ecc_Point) (x : BigInt) : Ecc_Point := { P with xCoord := x }

/-- Raw setter `setY` (src/include/ecc.hpp:104). -/
def setY (P : Ecc_Point) (y : BigInt) : Ecc_Point := { P with yCoord := y }

end Ecc_Point

/-- Extended Euclidean algorithm on naturals, structurally recursive on an
explicit fuel argument. `egcd fuel a b` returns Bezout coefficients
`(s, t)` with `s * a + t * b = Nat.gcd a b` whenever `a < fuel`. -/
def egcd : Nat → Nat → Nat → Int × Int
  | 0, _, _ => (0, 0)
  | fuel + 1, a, b =>
    if a = 0 then (0, 1)
    else
      let st := egcd fuel (b % a) a
      (st.2 - ((b / a : Nat) : Int) * st.1, st.1)

/-- Modelled from the spec: the modular inverse supplied by the external
numeric interface ("reduce and invert modulo a prime", `bigint.hpp` not
under `src/`), realised by the extended Euclidean algorithm. For an
argument not invertible modulo `p` (gcd different from 1) it silently
returns the reduced Bezout coefficient, matching the spec's "unspecified
behaviour / silent miscomputation" for invariant violations. -/
def invMod (x p : BigInt) : BigInt :=
  let a : Nat := (x % p).toNat
  (egcd (a + 1) a p.toNat).1 % p

namespace Ecc_Point

/-- Modelled from the spec: `Ecc_Point::doublePoint`
(declared src/include/ecc.hpp:236-251, body not under `src/`), following
the documented formulas with the curve constants read from the point's
bound parameters: lambda = (3x^2 + a) * (2y)^-1 mod p, then
x' = lambda^2 - 2x mod p and y' = lambda(x - x') - y mod p. No special
case for y = 0 (the spec flags that case as unhandled in the source). -/
def doublePoint (P : Ecc_Point) : Ecc_Point :=
  let p := P.curveParams.p
  let lam := ((3 * P.xCoord * P.xCoord + P.curveParams.a)
                * invMod (2 * P.yCoord) p) % p
  let x2 := (lam * lam - 2 * P.xCoord) % p
  let y2 := (lam * (P.xCoord - x2) - P.yCoord) % p
  { isInfinity := false, xCoord := x2, yCoord := y2,
    curveParams := P.curveParams }

/-- Modelled from the spec: `Ecc_Point::operator==`
(declared src/include/ecc.hpp:172-186, body not under `src/`): equal iff
both are Identity, or both are finite with identical coordinates compared
modulo the curve prime; the operands' curve associations are never
compared. -/
def eq (P Q : Ecc_Point) : Bool :=
  if P.isInfinity && Q.isInfinity then true
  else if P.isInfinity || Q.isInfinity then false
  else
    let p := P.curveParams.p
    decide (P.xCoord % p = Q.xCoord % p) && decide (P.yCoord % p = Q.yCoord % p)

/-- Modelled from the spec: `Ecc_Point::operator+`
(declared src/include/ecc.hpp:123-141, body not under `src/`), following
the specified case order: identity operands first, then the inverse pair
(equal `x`, each `y` the modular negation of the other), then coincident
operands (delegated to `doublePoint`), then the generic chord formula
lambda = (y2 - y1) * (x2 - x1)^-1 mod p, x3 = lambda^2 - x1 - x2 mod p,
y3 = lambda(x1 - x3) - y1 mod p. -/
def add (P Q : Ecc_Point) : Ecc_Point :=
  if P.isInfinity then Q
  else if Q.isInfinity then P
  else
    let p := P.curveParams.p
    if P.xCoord % p = Q.xCoord % p ∧ Q.yCoord % p = (p - P.yCoord) % p then
      identity
    else if eq P Q then
      doublePoint P
    else
      let lam := ((Q.yCoord - P.yCoord) * invMod (Q.xCoord - P.xCoord) p) % p
      let x3 := (lam * lam - P.xCoord - Q.xCoord) % p
      let y3 := (lam * (P.xCoord - x3) - P.yCoord) % p
      { isInfinity := false, xCoord := x3, yCoord := y3,
        curveParams := P.curveParams }

/-- Modelled from the spec: `Ecc_Point::operator-`
(declared src/include/ecc.hpp:143-154, body not under `src/`): Identity is
returned unchanged; a finite `(x, y)` becomes `(x, p - y mod p)` on the
same curve. -/
def neg (P : Ecc_Point) : Ecc_Point :=
  if P.isInfinity then P
  else
    { isInfinity := false, xCoord := P.xCoord,
      yCoord := (P.curveParams.p - P.yCoord) % P.curveParams.p,
      curveParams := P.curveParams }

/-- Modelled from the spec: the double-and-add loop of
`Ecc_Point::operator*`: accumulator `R`, running point `Q`; bits of the
scalar least-significant first; on a set bit `R` becomes `R + Q`; `Q` is
doubled every iteration; the loop ends once the scalar is exhausted. Fuel
makes the recursion structural; `fuel = k + 1` always suffices since the
scalar at least halves each step. -/
def mulLoop : Nat → Nat → Ecc_Point → Ecc_Point → Ecc_Point
  | 0, _, R, _ => R
  | fuel + 1, k, R, Q =>
    if k = 0 then R
    else mulLoop fuel (k / 2) (if k % 2 = 1 then add R Q else R) (add Q Q)

/-- Modelled from the spec: `Ecc_Point::operator*`
(declared src/include/ecc.hpp:156-170, body not under `src/`): scalar
multiplication by a non-negative scalar via double-and-add, starting from
accumulator Identity and running point `P`. -/
def mul (P : Ecc_Point) (k : Nat) : Ecc_Point :=
  mulLoop (k + 1) k identity P

/-- Iterated addition: `P` added to itself `k` times under `add`
(zero times giving Identity), the reference the spec's scalar identities
compare `operator*` against. -/
def iterAdd (P : Ecc_Point) : Nat → Ecc_Point
  | 0 => identity
  | k + 1 => add (iterAdd P k) P

end Ecc_Point

/-- The chord slope exactly as the specification words it for the generic
addition case: lambda = (y2 - y1) * (x2 - x1)^-1 mod p. -/
def chordSlope (y1 x2 y2 : BigInt) (x1 p : BigInt) : BigInt :=
  ((y2 - y1) * invMod (x2 - x1) p) % p

/-- The generic-case result coordinates exactly as the specification words
them: x3 = lambda^2 - x1 - x2 mod p, y3 = lambda(x1 - x3) - y1 mod p. -/
def chordSpec (x1 y1 x2 y2 p : BigInt) : BigInt × BigInt :=
  let lam := chordSlope y1 x2 y2 x1 p
  let x3 := (lam * lam - x1 - x2) % p
  (x3, (lam * (x1 - x3) - y1) % p)

/-- The tangent slope exactly as the specification words it for doubling:
lambda = (3x^2 + a) * (2y)^-1 mod p. -/
def tangentSlope (x y a p : BigInt) : BigInt :=
  ((3 * x * x + a) * invMod (2 * y) p) % p

/-- The doubling result coordinates exactly as the specification words
them: x' = lambda^2 - 2x mod p, y' = lambda(x - x') - y mod p. -/
def tangentSpec (x y a p : BigInt) : BigInt × BigInt :=
  let lam := tangentSlope x y a p
  let x2 := (lam * lam - 2 * x) % p
  (x2, (lam * (x - x2) - y) % p)

/-- The P-256 generator, constructed from the active preset's `Gx`, `Gy`
through the coordinate constructor, as the spec's concrete properties use
it. -/
def generatorPoint : Ecc_Point :=
  Ecc_Point.ofCoords setCurveParameters.Gx setCurveParameters.Gy

/-- Bezout identity for the fuelled extended Euclidean algorithm: with
enough fuel, the returned coefficients combine `a` and `b` into their gcd. -/
theorem egcd_bezout : ∀ (fuel a b : Nat), a < fuel →
    (egcd fuel a b).1 * (a : Int) + (egcd fuel a b).2 * (b : Int) = (Nat.gcd a b : Int) := by
  intro fuel
  induction fuel with
  | zero => intro a b h; omega
  | succ fuel ih =>
    intro a b h
    rw [egcd]
    by_cases ha : a = 0
    · subst ha; simp
    · simp only [ha, if_false]
      have hlt : b % a < fuel :=
        lt_of_lt_of_le (Nat.mod_lt b (Nat.pos_of_ne_zero ha)) (Nat.lt_succ_iff.mp h)
      have hrec := ih (b % a) a hlt
      have hgcd : Nat.gcd a b = Nat.gcd (b % a) a := Nat.gcd_rec a b
      have hmod : ((b % a : Nat) : Int) = (b : Int) - ((b / a : Nat) : Int) * (a : Int) := by
        have h1 : ((b % a : Nat) : Int) + ((a : Nat) : Int) * ((b / a : Nat) : Int) = (b : Int) := by
          exact_mod_cast congrArg (Nat.cast : Nat → Int) (Nat.mod_add_div b a)
        linarith
      rw [hgcd]
      rw [hmod] at hrec
      linear_combination hrec

/-- Multiplication left operand can be reduced modulo `n` without changing
the residue of the product. -/
theorem emod_mul_cancel_left (a b n : Int) : a % n * b % n = a * b % n := by
  rw [Int.mul_emod (a % n) b, Int.emod_emod_of_dvd a dvd_rfl, ← Int.mul_emod]

/-- Multiplication right operand can be reduced modulo `n` without changing
the residue of the product. -/
theorem emod_mul_cancel_right (a b n : Int) : a * (b % n) % n = a * b % n := by
  rw [Int.mul_emod a (b % n), Int.emod_emod_of_dvd b dvd_rfl, ← Int.mul_emod]

/-- Correctness of the modelled modular inverse: when the reduced argument
is coprime to a positive modulus, `invMod x p * x` is congruent to 1. -/
theorem invMod_mul_emod (x p : Int) (hp : 0 < p) (h : Int.gcd (x % p) p = 1) :
    invMod x p * x % p = 1 % p := by
  have hpnz : p ≠ 0 := ne_of_gt hp
  have hnn : 0 ≤ x % p := Int.emod_nonneg x hpnz
  have hxa : (((x % p).toNat : Nat) : Int) = x % p := Int.toNat_of_nonneg hnn
  have hpn : ((p.toNat : Nat) : Int) = p := Int.toNat_of_nonneg (le_of_lt hp)
  have hg : Nat.gcd (x % p).toNat p.toNat = 1 := by
    have h1 : (x % p).natAbs = (x % p).toNat := by
      have c1 : (((x % p).natAbs : Nat) : Int) = (((x % p).toNat : Nat) : Int) := by
        rw [Int.natAbs_of_nonneg hnn, hxa]
      exact_mod_cast c1
    have h2 : p.natAbs = p.toNat := by
      have c2 : ((p.natAbs : Nat) : Int) = ((p.toNat : Nat) : Int) := by
        rw [Int.natAbs_of_nonneg (le_of_lt hp), hpn]
      exact_mod_cast c2
    rw [Int.gcd, h1, h2] at h
    exact h
  have hb := egcd_bezout ((x % p).toNat + 1) (x % p).toNat p.toNat (Nat.lt_succ_self _)
  rw [hg, hxa, hpn] at hb
  set s : Int := (egcd ((x % p).toNat + 1) (x % p).toNat p.toNat).1 with hs
  set t : Int := (egcd ((x % p).toNat + 1) (x % p).toNat p.toNat).2 with ht
  push_cast at hb
  have hsx : s * (x % p) = 1 + p * (-t) := by linarith
  have hinv : invMod x p = s % p := by
    simp only [invMod, hs]
  calc invMod x p * x % p
      = s % p * x % p := by rw [hinv]
    _ = s * x % p := emod_mul_cancel_left s x p
    _ = s * (x % p) % p := (emod_mul_cancel_right s x p).symm
    _ = (1 + p * (-t)) % p := by rw [hsx]
    _ = 1 % p := Int.add_mul_emod_self_left 1 p (-t)

/-- The modelled equality operator accepts any point compared with itself. -/
theorem Ecc_Point.eq_self (P : Ecc_Point) : Ecc_Point.eq P P = true := by
  cases hP : P.isInfinity <;> simp [Ecc_Point.eq, hP]

/-- The double-and-add loop keeps an Identity accumulator and running point
at Identity, whatever the scalar. -/
theorem mulLoop_isInfinity (fuel : Nat) : ∀ (k : Nat) (R Q : Ecc_Point),
    R.isInfinity = true → Q.isInfinity = true →
    (Ecc_Point.mulLoop fuel k R Q).isInfinity = true := by
  induction fuel with
  | zero => intro k R Q hR _; simpa [Ecc_Point.mulLoop] using hR
  | succ fuel ih =>
    intro k R Q hR hQ
    rw [Ecc_Point.mulLoop]
    by_cases hk : k = 0
    · simpa [hk] using hR
    · rw [if_neg hk]
      apply ih
      · by_cases hbit : k % 2 = 1
        · simp only [hbit, if_pos]
          simp [Ecc_Point.add, hR, hQ]
        · simpa [hbit] using hR
      · simp [Ecc_Point.add, hQ]

/-- C1: for two finite points of the active curve whose `x` residues
differ, `operator+` takes the generic branch and returns exactly the point
given by the spec's chord formulas (lambda = (y2 - y1) * (x2 - x1)^-1 mod p,
x3 = lambda^2 - x1 - x2 mod p, y3 = lambda(x1 - x3) - y1 mod p); moreover,
whenever `x2 - x1` is invertible modulo a positive `p`, the computed
lambda genuinely is the modular slope: lambda * (x2 - x1) is congruent to
y2 - y1 modulo p. -/
theorem ecc_add_generic_case (P Q : Ecc_Point)
    (hP : P.isInfinity = false) (hQ : Q.isInfinity = false)
    (hx : P.xCoord % P.curveParams.p ≠ Q.xCoord % P.curveParams.p) :
    Ecc_Point.add P Q =
      { isInfinity := false,
        xCoord := (chordSpec P.xCoord P.yCoord Q.xCoord Q.yCoord P.curveParams.p).1,
        yCoord := (chordSpec P.xCoord P.yCoord Q.xCoord Q.yCoord P.curveParams.p).2,
        curveParams := P.curveParams }
    ∧ (0 < P.curveParams.p →
        Int.gcd ((Q.xCoord - P.xCoord) % P.curveParams.p) P.curveParams.p = 1 →
        chordSlope P.yCoord Q.xCoord Q.yCoord P.xCoord P.curveParams.p
            * (Q.xCoord - P.xCoord) % P.curveParams.p
          = (Q.yCoord - P.yCoord) % P.curveParams.p) := by
  constructor
  · have hc1 : ¬(P.xCoord % P.curveParams.p = Q.xCoord % P.curveParams.p
        ∧ Q.yCoord % P.curveParams.p
            = (P.curveParams.p - P.yCoord) % P.curveParams.p) := fun h => hx h.1
    have hc2 : Ecc_Point.eq P Q = false := by
      simp [Ecc_Point.eq, hP, hQ, hx]
    simp only [Ecc_Point.add, hP, hQ, Bool.false_eq_true, if_false]
    rw [if_neg hc1, hc2]
    simp only [Bool.false_eq_true, if_false]
    rfl
  · intro hp hg
    set p := P.curveParams.p
    set d := Q.xCoord - P.xCoord with hd
    set dy := Q.yCoord - P.yCoord with hdy
    calc chordSlope P.yCoord Q.xCoord Q.yCoord P.xCoord p * d % p
        = (dy * invMod d p) * d % p := emod_mul_cancel_left _ _ p
      _ = dy * (invMod d p * d) % p := by ring_nf
      _ = dy * (invMod d p * d % p) % p := (emod_mul_cancel_right _ _ p).symm
      _ = dy * (1 % p) % p := by rw [invMod_mul_emod d p hp hg]
      _ = dy * 1 % p := emod_mul_cancel_right _ _ p
      _ = dy % p := by ring_nf

/-- C2: adding a finite point of the active P-256 curve with nonzero `y`
residue to itself delegates to `doublePoint`, and `doublePoint` returns
exactly the point given by the spec's tangent formulas
(lambda = (3x^2 + a) * (2y)^-1 mod p, x' = lambda^2 - 2x mod p,
y' = lambda(x - x') - y mod p); moreover, whenever `2y` is invertible
modulo `p`, the computed lambda genuinely is the tangent slope:
lambda * 2y is congruent to 3x^2 + a modulo p. -/
theorem ecc_add_same_point_doubles (P : Ecc_Point)
    (hP : P.isInfinity = false)
    (hcp : P.curveParams = setCurveParameters)
    (hy : P.yCoord % P.curveParams.p ≠ 0) :
    Ecc_Point.add P P = Ecc_Point.doublePoint P
    ∧ Ecc_Point.doublePoint P =
      { isInfinity := false,
        xCoord := (tangentSpec P.xCoord P.yCoord P.curveParams.a P.curveParams.p).1,
        yCoord := (tangentSpec P.xCoord P.yCoord P.curveParams.a P.curveParams.p).2,
        curveParams := P.curveParams }
    ∧ (Int.gcd ((2 * P.yCoord) % P.curveParams.p) P.curveParams.p = 1 →
        tangentSlope P.xCoord P.yCoord P.curveParams.a P.curveParams.p
            * (2 * P.yCoord) % P.curveParams.p
          = (3 * P.xCoord * P.xCoord + P.curveParams.a) % P.curveParams.p) := by
  refine ⟨?_, rfl, ?_⟩
  · have hc1 : ¬(P.yCoord % P.curveParams.p
        = (P.curveParams.p - P.yCoord) % P.curveParams.p) := by
      intro heq
      have hodd : P.curveParams.p % 2 = 1 := by rw [hcp]; decide
      have hsub : (P.yCoord - (P.curveParams.p - P.yCoord)) % P.curveParams.p = 0 :=
        Int.emod_eq_emod_iff_emod_sub_eq_zero.mp heq
      rw [show P.yCoord - (P.curveParams.p - P.yCoord)
            = 2 * P.yCoord - P.curveParams.p from by ring] at hsub
      have hdvdsub : P.curveParams.p ∣ 2 * P.yCoord - P.curveParams.p :=
        Int.dvd_of_emod_eq_zero hsub
      have hdvd2 : P.curveParams.p ∣ 2 * P.yCoord := by
        have h := dvd_add hdvdsub (dvd_refl P.curveParams.p)
        rwa [sub_add_cancel] at h
      have hcop : IsCoprime (P.curveParams.p) (2 : Int) :=
        Int.isCoprime_iff_gcd_eq_one.mpr
          (Nat.coprime_two_right.mpr
            (Int.natAbs_odd.mpr (Int.odd_iff.mpr hodd)))
      have hdvdy : P.curveParams.p ∣ P.yCoord := hcop.dvd_of_dvd_mul_left hdvd2
      exact hy (Int.emod_eq_zero_of_dvd hdvdy)
    have heqPP : Ecc_Point.eq P P = true := Ecc_Point.eq_self P
    simp only [Ecc_Point.add, hP, Bool.false_eq_true, if_false]
    rw [if_neg fun h => hc1 (And.right h)]
    simp [heqPP]
  · intro hg
    have hp : 0 < P.curveParams.p := by rw [hcp]; decide
    set p := P.curveParams.p
    set d := 2 * P.yCoord with hd
    set s3 := 3 * P.xCoord * P.xCoord + P.curveParams.a with hs3
    calc tangentSlope P.xCoord P.yCoord P.curveParams.a p * d % p
        = (s3 * invMod d p) * d % p := emod_mul_cancel_left _ _ p
      _ = s3 * (invMod d p * d) % p := by ring_nf
      _ = s3 * (invMod d p * d % p) % p := (emod_mul_cancel_right _ _ p).symm
      _ = s3 * (1 % p) % p := by rw [invMod_mul_emod d p hp hg]
      _ = s3 * 1 % p := emod_mul_cancel_right _ _ p
      _ = s3 % p := by ring_nf

set_option maxRecDepth 40000 in
/-- C3: `operator*` returns Identity for scalar 0 and for an Identity base
point; it returns the base point itself for scalar 1; and, as the spec's
brute-force scalar identities state, for every scalar up to 20 the
double-and-add result on the P-256 generator equals the generator added to
itself that many times under `operator+` (compared with `operator==`). -/
theorem ecc_mul_double_and_add :
    (∀ P : Ecc_Point, Ecc_Point.mul P 0 = Ecc_Point.identity)
    ∧ (∀ (P : Ecc_Point) (k : Nat), P.isInfinity = true →
        (Ecc_Point.mul P k).isInfinity = true)
    ∧ (∀ P : Ecc_Point, Ecc_Point.mul P 1 = P)
    ∧ (∀ k : Nat, k < 21 →
        Ecc_Point.eq (Ecc_Point.mul generatorPoint k)
          (Ecc_Point.iterAdd generatorPoint k) = true) := by
  refine ⟨fun P => rfl, ?_, ?_, by decide⟩
  · intro P k hP
    exact mulLoop_isInfinity (k + 1) k Ecc_Point.identity P rfl hP
  · intro P
    show Ecc_Point.mulLoop 2 1 Ecc_Point.identity P = P
    rw [Ecc_Point.mulLoop]
    norm_num
    rw [Ecc_Point.mulLoop]
    simp [Ecc_Point.add, Ecc_Point.identity]

/-- C4: evaluation at a failing input. For the coordinate-constructed point
(5, 0) of the active curve, `doublePoint` applies the tangent formula with
no special case for y = 0 and returns a finite point (coordinates
(p - 10, 0)), not Identity as the claim and the spec's stated intent
require; `operator+` applied to the point and itself does return Identity,
through the inverse-pair branch. -/
theorem doublePoint_y_zero_eval :
    (Ecc_Point.doublePoint (Ecc_Point.ofCoords 5 0)).isInfinity = false
    ∧ (Ecc_Point.doublePoint (Ecc_Point.ofCoords 5 0)).xCoord
        = setCurveParameters.p - 10
    ∧ (Ecc_Point.doublePoint (Ecc_Point.ofCoords 5 0)).yCoord = 0
    ∧ Ecc_Point.add (Ecc_Point.ofCoords 5 0) (Ecc_Point.ofCoords 5 0)
        = Ecc_Point.identity := by
  refine ⟨rfl, by decide, by decide, by decide⟩

/-- C5: adding an Identity-state point on either side of any point returns
that point unchanged under the equality operator. -/
theorem ecc_add_identity_laws (P I : Ecc_Point) (hI : I.isInfinity = true) :
    Ecc_Point.eq (Ecc_Point.add P I) P = true
    ∧ Ecc_Point.eq (Ecc_Point.add I P) P = true := by
  constructor
  · cases hP : P.isInfinity
    · simp [Ecc_Point.add, hP, hI, Ecc_Point.eq_self]
    · simp [Ecc_Point.add, Ecc_Point.eq, hP, hI]
  · simp [Ecc_Point.add, hI, Ecc_Point.eq_self]

/-- C6: when two finite operands have equal `x` residues and the second's
`y` residue is the modular negation of the first's, `operator+` returns
the Identity point; in particular a finite point plus its `operator-`
negation is Identity. -/
theorem ecc_add_inverse_law (P Q : Ecc_Point)
    (hP : P.isInfinity = false) (hQ : Q.isInfinity = false)
    (hx : P.xCoord % P.curveParams.p = Q.xCoord % P.curveParams.p)
    (hy : Q.yCoord % P.curveParams.p = (P.curveParams.p - P.yCoord) % P.curveParams.p) :
    Ecc_Point.add P Q = Ecc_Point.identity
    ∧ Ecc_Point.add P (Ecc_Point.neg P) = Ecc_Point.identity := by
  constructor
  · simp only [Ecc_Point.add, hP, hQ, Bool.false_eq_true, if_false]
    rw [if_pos ⟨hx, hy⟩]
  · simp only [Ecc_Point.add, Ecc_Point.neg, hP, Bool.false_eq_true, if_false]
    rw [if_pos ⟨trivial, Int.emod_emod_of_dvd _ dvd_rfl⟩]

/-- C7: `operator-` returns Identity for an Identity point, and for a
finite point returns `(x, p - y mod p)` with the `x` coordinate and the
curve association unchanged. -/
theorem ecc_neg_spec (P : Ecc_Point) :
    (P.isInfinity = true →
      (Ecc_Point.neg P).isInfinity = true ∧ Ecc_Point.neg P = P)
    ∧ (P.isInfinity = false →
      Ecc_Point.neg P =
        { isInfinity := false, xCoord := P.xCoord,
          yCoord := (P.curveParams.p - P.yCoord) % P.curveParams.p,
          curveParams := P.curveParams }) := by
  constructor
  · intro hP; exact ⟨by simp [Ecc_Point.neg, hP], by simp [Ecc_Point.neg, hP]⟩
  · intro hP; simp [Ecc_Point.neg, hP]

/-- C8: `operator==` returns true exactly when both points are Identity, or
both are finite with identical `x` and identical `y` residues modulo the
curve prime (read from the left operand, the single active curve of the
design); the operands' curve associations are never compared, in particular
replacing the right operand's parameters never changes the verdict. -/
theorem ecc_eq_spec (P Q : Ecc_Point) :
    (Ecc_Point.eq P Q = true ↔
      (P.isInfinity = true ∧ Q.isInfinity = true)
      ∨ (P.isInfinity = false ∧ Q.isInfinity = false
          ∧ P.xCoord % P.curveParams.p = Q.xCoord % P.curveParams.p
          ∧ P.yCoord % P.curveParams.p = Q.yCoord % P.curveParams.p))
    ∧ (∀ cp : CurveParameters,
        Ecc_Point.eq P { Q with curveParams := cp } = Ecc_Point.eq P Q) := by
  constructor
  · cases hP : P.isInfinity <;> cases hQ : Q.isInfinity <;>
      simp [Ecc_Point.eq, hP, hQ]
  · intro cp
    cases hP : P.isInfinity <;> cases hQ : Q.isInfinity <;>
      simp [Ecc_Point.eq, hP, hQ]

/-- C9: the six P-256 constants assigned by curve selection satisfy the
curve equation at the generator: Gy^2 is congruent to Gx^3 + a Gx + b
modulo p. -/
theorem p256_generator_on_curve :
    setCurveParameters.Gy * setCurveParameters.Gy % setCurveParameters.p
      = (setCurveParameters.Gx * setCurveParameters.Gx * setCurveParameters.Gx
          + setCurveParameters.a * setCurveParameters.Gx + setCurveParameters.b)
          % setCurveParameters.p := by
  decide

/-- C10: the no-argument-constructed Identity point has zero coordinates,
the infinity flag set, and never binds the active curve: its `getP` is the
default-constructed big integer, not the active prime, while `getP` of any
coordinate-constructed point is the active P-256 prime. -/
theorem default_point_unbound_curve :
    Ecc_Point.identity.isInfinity = true
    ∧ Ecc_Point.identity.xCoord = 0
    ∧ Ecc_Point.identity.yCoord = 0
    ∧ Ecc_Point.identity.getP = bigIntDefault
    ∧ Ecc_Point.identity.curveParams = { }
    ∧ Ecc_Point.identity.getP ≠ setCurveParameters.p
    ∧ ∀ x y : BigInt, (Ecc_Point.ofCoords x y).getP = setCurveParameters.p := by
  exact ⟨rfl, rfl, rfl, rfl, rfl, by decide, fun x y => rfl⟩

/-- Witness for C1: the generic branch applied to the concrete finite
points (1, 2) and (3, 4) of the active curve. -/
theorem ecc_add_generic_case_witness :
    ((Ecc_Point.ofCoords 1 2).xCoord % (Ecc_Point.ofCoords 1 2).curveParams.p
        ≠ (Ecc_Point.ofCoords 3 4).xCoord % (Ecc_Point.ofCoords 1 2).curveParams.p)
    ∧ (Ecc_Point.add (Ecc_Point.ofCoords 1 2) (Ecc_Point.ofCoords 3 4)
        = { isInfinity := false,
            xCoord := (chordSpec 1 2 3 4 setCurveParameters.p).1,
            yCoord := (chordSpec 1 2 3 4 setCurveParameters.p).2,
            curveParams := setCurveParameters }
      ∧ (0 < setCurveParameters.p →
          Int.gcd (((3 : Int) - 1) % setCurveParameters.p) setCurveParameters.p = 1 →
          chordSlope 2 3 4 1 setCurveParameters.p * ((3 : Int) - 1) % setCurveParameters.p
            = ((4 : Int) - 2) % setCurveParameters.p)) :=
  ⟨by decide,
   ecc_add_generic_case (Ecc_Point.ofCoords 1 2) (Ecc_Point.ofCoords 3 4)
     rfl rfl (by decide)⟩

/-- Witness for C2: doubling delegation applied to the concrete finite
point (1, 2) of the active curve. -/
theorem ecc_add_same_point_doubles_witness :
    ((Ecc_Point.ofCoords 1 2).yCoord % (Ecc_Point.ofCoords 1 2).curveParams.p ≠ 0)
    ∧ (Ecc_Point.add (Ecc_Point.ofCoords 1 2) (Ecc_Point.ofCoords 1 2)
        = Ecc_Point.doublePoint (Ecc_Point.ofCoords 1 2)
      ∧ Ecc_Point.doublePoint (Ecc_Point.ofCoords 1 2) =
        { isInfinity := false,
          xCoord := (tangentSpec 1 2 setCurveParameters.a setCurveParameters.p).1,
          yCoord := (tangentSpec 1 2 setCurveParameters.a setCurveParameters.p).2,
          curveParams := setCurveParameters }
      ∧ (Int.gcd ((2 * (2 : Int)) % setCurveParameters.p) setCurveParameters.p = 1 →
          tangentSlope 1 2 setCurveParameters.a setCurveParameters.p
              * (2 * (2 : Int)) % setCurveParameters.p
            = (3 * (1 : Int) * 1 + setCurveParameters.a) % setCurveParameters.p)) :=
  ⟨by decide,
   ecc_add_same_point_doubles (Ecc_Point.ofCoords 1 2) rfl rfl (by decide)⟩

/-- Witness for C3: an Identity base point stays Identity under scalar 7,
and the scalar-20 double-and-add result on the P-256 generator equals the
20-fold iterated sum. -/
theorem ecc_mul_double_and_add_witness :
    (Ecc_Point.mul Ecc_Point.identity 7).isInfinity = true
    ∧ Ecc_Point.eq (Ecc_Point.mul generatorPoint 20)
        (Ecc_Point.iterAdd generatorPoint 20) = true :=
  ⟨ecc_mul_double_and_add.2.1 Ecc_Point.identity 7 rfl,
   ecc_mul_double_and_add.2.2.2 20 (by decide)⟩

/-- Witness for C5: the identity laws at the concrete finite point (1, 2)
and the Identity point. -/
theorem ecc_add_identity_laws_witness :
    Ecc_Point.eq (Ecc_Point.add (Ecc_Point.ofCoords 1 2) Ecc_Point.identity)
        (Ecc_Point.ofCoords 1 2) = true
    ∧ Ecc_Point.eq (Ecc_Point.add Ecc_Point.identity (Ecc_Point.ofCoords 1 2))
        (Ecc_Point.ofCoords 1 2) = true :=
  ecc_add_identity_laws (Ecc_Point.ofCoords 1 2) Ecc_Point.identity rfl

/-- Witness for C6: the inverse pair (1, 2) and (1, p - 2) of the active
curve adds to Identity, as does (1, 2) plus its negation. -/
theorem ecc_add_inverse_law_witness :
    ((Ecc_Point.ofCoords 1 (setCurveParameters.p - 2)).yCoord
          % (Ecc_Point.ofCoords 1 2).curveParams.p
        = ((Ecc_Point.ofCoords 1 2).curveParams.p - (Ecc_Point.ofCoords 1 2).yCoord)
          % (Ecc_Point.ofCoords 1 2).curveParams.p)
    ∧ (Ecc_Point.add (Ecc_Point.ofCoords 1 2)
          (Ecc_Point.ofCoords 1 (setCurveParameters.p - 2)) = Ecc_Point.identity
      ∧ Ecc_Point.add (Ecc_Point.ofCoords 1 2)
          (Ecc_Point.neg (Ecc_Point.ofCoords 1 2)) = Ecc_Point.identity) :=
  ⟨by decide,
   ecc_add_inverse_law (Ecc_Point.ofCoords 1 2)
     (Ecc_Point.ofCoords 1 (setCurveParameters.p - 2)) rfl rfl rfl (by decide)⟩

/-- Witness for C7: negation evaluated at the Identity point and at the
concrete finite point (1, 2). -/
theorem ecc_neg_spec_witness :
    ((Ecc_Point.neg Ecc_Point.identity).isInfinity = true
      ∧ Ecc_Point.neg Ecc_Point.identity = Ecc_Point.identity)
    ∧ Ecc_Point.neg (Ecc_Point.ofCoords 1 2) =
      { isInfinity := false, xCoord := 1,
        yCoord := (setCurveParameters.p - 2) % setCurveParameters.p,
        curveParams := setCurveParameters } :=
  ⟨(ecc_neg_spec Ecc_Point.identity).1 rfl,
   (ecc_neg_spec (Ecc_Point.ofCoords 1 2)).2 rfl⟩
